import Mathlib

/-!
Verification development for the real-time multimodal segmentation and
encoding pipeline of the shopping extension backend.

The Python sources are shallowly embedded:
* floats carrying millisecond timestamps and durations become `ℚ`
  (the source only adds, subtracts, multiplies, divides and compares
  such values, always on dyadic/decimal data, so `ℚ` models them
  exactly);
* byte strings become `List ℕ` with entries below 256;
* the `"idle"` / `"speaking"` state strings become an inductive type;
* `None` becomes `Option.none`; Python's falsy `x or y` on an optional
  float is embedded by `pyOrQ` (`y` when `x` is `None` *or* `0.0`);
* Python's `int(...)` on a float (truncation toward zero) is `pyInt`.

Rational arithmetic is routed through kernel-computable wrappers
(`qadd`, `qsub`, `qmul`, `qdiv`, ...) built on `mkRat`, because the
library operations on `ℚ` are `@[irreducible]` and would make concrete
runs of the embedded code impossible to evaluate inside proofs.  The
lemmas `qadd_eq`, `qsub_eq`, ... identify them with the ordinary field
operations, so every theorem is stated and proved over ordinary `ℚ`
arithmetic.
-/

/-- Kernel-computable addition on `ℚ`. -/
def qadd (a b : ℚ) : ℚ := mkRat (a.num * b.den + b.num * a.den) (a.den * b.den)

/-- Kernel-computable subtraction on `ℚ`. -/
def qsub (a b : ℚ) : ℚ := mkRat (a.num * b.den - b.num * a.den) (a.den * b.den)

/-- Kernel-computable multiplication on `ℚ`. -/
def qmul (a b : ℚ) : ℚ := mkRat (a.num * b.num) (a.den * b.den)

/-- Kernel-computable negation on `ℚ`. -/
def qneg (x : ℚ) : ℚ := mkRat (-x.num) x.den

/-- Kernel-computable inverse on `ℚ` (`0` maps to `0`). -/
def qinv (b : ℚ) : ℚ :=
  if b.num < 0 then mkRat (-(b.den : ℤ)) b.num.natAbs
  else mkRat b.den b.num.natAbs

/-- Kernel-computable division on `ℚ` (division by `0` gives `0`). -/
def qdiv (a b : ℚ) : ℚ := qmul a (qinv b)

/-- Kernel-computable maximum on `ℚ`. -/
def qmax (a b : ℚ) : ℚ := if a ≤ b then b else a

/-- Kernel-computable minimum on `ℚ`. -/
def qmin (a b : ℚ) : ℚ := if a ≤ b then a else b

/-- Kernel-computable absolute value on `ℚ`. -/
def qabs (x : ℚ) : ℚ := if x < 0 then qneg x else x

/-- Kernel-computable sum of a list of rationals. -/
def qsum (l : List ℚ) : ℚ := l.foldr qadd 0

/-- Python's `int(x)` on a float: truncation toward zero. -/
def pyInt (x : ℚ) : ℤ := Int.tdiv x.num x.den

/-- Python's `x or y` for an optional float `x`: `y` if `x` is `None` or `0.0`. -/
def pyOrQ (x : Option ℚ) (y : ℚ) : ℚ :=
  match x with
  | none => y
  | some v => if v = 0 then y else v

/-- Clamp to zero, as `if v < 0: v = 0` in the source. -/
def pyClamp (x : ℚ) : ℚ := if x < 0 then 0 else x

lemma den_q_ne (a : ℚ) : ((a.den : ℚ)) ≠ 0 := by
  exact_mod_cast a.den_nz

lemma qadd_eq (a b : ℚ) : qadd a b = a + b := by
  rw [qadd, Rat.mkRat_eq_div]
  conv_rhs => rw [← Rat.num_div_den a, ← Rat.num_div_den b]
  rw [div_add_div _ _ (den_q_ne a) (den_q_ne b)]
  push_cast
  ring_nf

lemma qsub_eq (a b : ℚ) : qsub a b = a - b := by
  rw [qsub, Rat.mkRat_eq_div]
  conv_rhs => rw [← Rat.num_div_den a, ← Rat.num_div_den b]
  rw [div_sub_div _ _ (den_q_ne a) (den_q_ne b)]
  push_cast
  ring_nf

lemma qmul_eq (a b : ℚ) : qmul a b = a * b := by
  rw [qmul, Rat.mkRat_eq_div]
  conv_rhs => rw [← Rat.num_div_den a, ← Rat.num_div_den b]
  rw [div_mul_div_comm]
  push_cast
  ring_nf

lemma qneg_eq (x : ℚ) : qneg x = -x := by
  rw [qneg, Rat.mkRat_eq_div]
  push_cast
  rw [neg_div, Rat.num_div_den]

lemma qinv_eq (b : ℚ) : qinv b = b⁻¹ := by
  rcases lt_trichotomy b.num 0 with h | h | h
  · rw [qinv, if_pos h, Rat.mkRat_eq_div]
    have h2 : ((b.num.natAbs : ℚ)) = -(b.num : ℚ) := by
      rw [Int.cast_natAbs, abs_of_neg h]
      push_cast
      ring
    rw [h2]
    conv_rhs => rw [← Rat.num_div_den b]
    rw [inv_div]
    push_cast
    rw [div_neg, neg_div, neg_neg]
  · have hb0 : b = 0 := Rat.num_eq_zero.mp h
    subst hb0
    simp [qinv]
  · rw [qinv, if_neg (by omega), Rat.mkRat_eq_div]
    have h2 : ((b.num.natAbs : ℚ)) = (b.num : ℚ) := by
      rw [Int.cast_natAbs, abs_of_nonneg h.le]
    rw [h2]
    conv_rhs => rw [← Rat.num_div_den b]
    rw [inv_div]
    push_cast
    rfl

lemma qdiv_eq (a b : ℚ) : qdiv a b = a / b := by
  rw [qdiv, qmul_eq, qinv_eq, div_eq_mul_inv]

lemma qmax_eq (a b : ℚ) : qmax a b = max a b := by
  rw [qmax]
  split
  · exact (max_eq_right (by assumption)).symm
  · exact (max_eq_left (le_of_not_le (by assumption))).symm

lemma qmin_eq (a b : ℚ) : qmin a b = min a b := by
  rw [qmin]
  split
  · exact (min_eq_left (by assumption)).symm
  · exact (min_eq_right (le_of_not_le (by assumption))).symm

lemma qabs_eq (x : ℚ) : qabs x = |x| := by
  rw [qabs]
  split
  · rw [qneg_eq, abs_of_neg (by assumption)]
  · rw [abs_of_nonneg (le_of_not_lt (by assumption))]

lemma qsum_eq (l : List ℚ) : qsum l = l.sum := by
  induction l with
  | nil => rfl
  | cons x xs ih =>
    rw [qsum, List.foldr_cons, qadd_eq, List.sum_cons]
    rw [qsum] at ih
    rw [ih]

lemma pyInt_natCast (n : ℕ) : pyInt ((n : ℕ) : ℚ) = n := by
  rw [pyInt]
  simp [Rat.num_natCast, Rat.den_natCast, Int.tdiv_one]

lemma pyInt_zero : pyInt 0 = 0 := by
  rw [pyInt]
  rfl

lemma pyClamp_le (x y : ℚ) (hx : x ≤ y) (hy : 0 ≤ y) : pyClamp x ≤ y := by
  rw [pyClamp]
  split
  · exact hy
  · exact hx

lemma pyClamp_nonneg (x : ℚ) : 0 ≤ pyClamp x := by
  rw [pyClamp]
  split
  · exact le_refl 0
  · exact le_of_not_lt (by assumption)

/-!
## The VAD segmenter

`ServerRmsVadSegmenter` (`src/server/server_vad.py`) and
`RmsVadSegmenter` (`src/server/app/utils/vad.py`).
-/

/-- Configuration of the VAD segmenter, from `ServerVadConfig`
(`src/server/server_vad.py`) and the identical `VadConfig`
(`src/server/app/utils/vad.py`). -/
structure VadConfig where
  frame_ms : ℕ
  min_speech_ms : ℕ
  end_silence_ms : ℕ
  pre_roll_ms : ℕ
  post_roll_ms : ℕ
  amplitude_threshold : ℚ
deriving DecidableEq

/-- The defaults: 30 ms frames, 300 ms minimum speech, 800 ms end silence,
200 ms pre-roll, 300 ms post-roll, threshold 0.02. -/
def defaultVadConfig : VadConfig :=
  { frame_ms := 30, min_speech_ms := 300, end_silence_ms := 800,
    pre_roll_ms := 200, post_roll_ms := 300, amplitude_threshold := mkRat 1 50 }

/-- The two states of the segmenter (`self.state` strings in the source). -/
inductive VadPhase
  | idle
  | speaking
deriving DecidableEq

/-- Mutable state of `ServerRmsVadSegmenter` / `RmsVadSegmenter`. -/
structure VadState where
  state : VadPhase
  speech_ms : ℕ
  silence_ms : ℕ
  first_speech_ts_ms : Option ℚ
  last_speech_ts_ms : Option ℚ
deriving DecidableEq

/-- The state right after `__init__` (and after every segment close). -/
def initVadState : VadState :=
  { state := VadPhase.idle, speech_ms := 0, silence_ms := 0,
    first_speech_ts_ms := none, last_speech_ts_ms := none }

/-- Decode little-endian signed 16-bit samples from a byte list, dropping a
trailing odd byte, as the loop in `_frame_is_speech` does. -/
def bytesToSamples : List ℕ → List ℤ
  | b0 :: b1 :: rest =>
    (if (b0 + 256 * b1) % 65536 < 32768 then ((b0 + 256 * b1) % 65536 : ℤ)
     else ((b0 + 256 * b1) % 65536 : ℤ) - 65536) :: bytesToSamples rest
  | _ => []

/-- `_frame_is_speech`: mean absolute amplitude of the decoded samples,
normalized by 32768, compared against the threshold.  Empty input (or a
single stray byte) is classified as silence. -/
def frameIsSpeech (cfg : VadConfig) (pcm : List ℕ) : Bool :=
  let samples := bytesToSamples pcm
  match samples with
  | [] => false
  | _ =>
    let total : ℚ := qsum (samples.map (fun s => (s.natAbs : ℚ)))
    let rms : ℚ := qdiv (qdiv total (samples.length : ℚ)) 32768
    decide (cfg.amplitude_threshold ≤ rms)

/-- Events returned by `process_frame`. -/
inductive VadEvent
  | segmentStart (segment_start_ms : ℚ)
  | segmentEnd (segment_start_ms segment_end_ms : ℚ)
deriving DecidableEq

/-- `ServerRmsVadSegmenter.process_frame` (`src/server/server_vad.py`,
lines 45-83): classify the frame, update the accumulators, and fire at most
one boundary event.  Returns the new state and the optional event. -/
def process_frame (cfg : VadConfig) (s : VadState) (frameBytes : List ℕ)
    (frame_start_ts_ms : ℚ) : VadState × Option VadEvent :=
  if frameIsSpeech cfg frameBytes then
    if s.state = VadPhase.idle ∧ cfg.min_speech_ms ≤ s.speech_ms + cfg.frame_ms then
      (⟨VadPhase.speaking, s.speech_ms + cfg.frame_ms, 0,
          some (pyClamp (qsub (qsub frame_start_ts_ms
            (qsub ((s.speech_ms + cfg.frame_ms : ℕ) : ℚ) (cfg.frame_ms : ℚ)))
            (cfg.pre_roll_ms : ℚ))),
          some frame_start_ts_ms⟩,
        some (VadEvent.segmentStart (pyClamp (qsub (qsub frame_start_ts_ms
          (qsub ((s.speech_ms + cfg.frame_ms : ℕ) : ℚ) (cfg.frame_ms : ℚ)))
          (cfg.pre_roll_ms : ℚ)))))
    else if s.state = VadPhase.speaking then
      (⟨s.state, s.speech_ms + cfg.frame_ms, 0, s.first_speech_ts_ms,
          some frame_start_ts_ms⟩, none)
    else
      (⟨s.state, s.speech_ms + cfg.frame_ms, 0, s.first_speech_ts_ms,
          s.last_speech_ts_ms⟩, none)
  else
    if s.state = VadPhase.speaking ∧ cfg.end_silence_ms ≤ s.silence_ms + cfg.frame_ms then
      (initVadState,
        some (VadEvent.segmentEnd (s.first_speech_ts_ms.getD frame_start_ts_ms)
          (qadd (pyOrQ s.last_speech_ts_ms frame_start_ts_ms) (cfg.post_roll_ms : ℚ))))
    else
      (⟨s.state, s.speech_ms, s.silence_ms + cfg.frame_ms, s.first_speech_ts_ms,
          s.last_speech_ts_ms⟩, none)

/-- `RmsVadSegmenter.process_frame` (`src/server/app/utils/vad.py`,
lines 91-161).  Identical to `process_frame` except for the segment-end
start fallback: that source writes `self.first_speech_ts_ms or
frame_start_ts_ms` (a falsy test, firing also on `0.0`), where
`server_vad.py` tests `is not None`. -/
def process_frame_app (cfg : VadConfig) (s : VadState) (frameBytes : List ℕ)
    (frame_start_ts_ms : ℚ) : VadState × Option VadEvent :=
  if frameIsSpeech cfg frameBytes then
    if s.state = VadPhase.idle ∧ cfg.min_speech_ms ≤ s.speech_ms + cfg.frame_ms then
      (⟨VadPhase.speaking, s.speech_ms + cfg.frame_ms, 0,
          some (pyClamp (qsub (qsub frame_start_ts_ms
            (qsub ((s.speech_ms + cfg.frame_ms : ℕ) : ℚ) (cfg.frame_ms : ℚ)))
            (cfg.pre_roll_ms : ℚ))),
          some frame_start_ts_ms⟩,
        some (VadEvent.segmentStart (pyClamp (qsub (qsub frame_start_ts_ms
          (qsub ((s.speech_ms + cfg.frame_ms : ℕ) : ℚ) (cfg.frame_ms : ℚ)))
          (cfg.pre_roll_ms : ℚ)))))
    else if s.state = VadPhase.speaking then
      (⟨s.state, s.speech_ms + cfg.frame_ms, 0, s.first_speech_ts_ms,
          some frame_start_ts_ms⟩, none)
    else
      (⟨s.state, s.speech_ms + cfg.frame_ms, 0, s.first_speech_ts_ms,
          s.last_speech_ts_ms⟩, none)
  else
    if s.state = VadPhase.speaking ∧ cfg.end_silence_ms ≤ s.silence_ms + cfg.frame_ms then
      (initVadState,
        some (VadEvent.segmentEnd (pyOrQ s.first_speech_ts_ms frame_start_ts_ms)
          (qadd (pyOrQ s.last_speech_ts_ms frame_start_ts_ms) (cfg.post_roll_ms : ℚ))))
    else
      (⟨s.state, s.speech_ms, s.silence_ms + cfg.frame_ms, s.first_speech_ts_ms,
          s.last_speech_ts_ms⟩, none)

/-- One step of a segmenter trace: the state before the call, the frame
bytes and timestamp passed, the emitted event, and the state after. -/
structure TraceEntry where
  pre : VadState
  frameBytes : List ℕ
  ts : ℚ
  event : Option VadEvent
  post : VadState
deriving DecidableEq

/-- Feed a list of (frame bytes, timestamp) pairs through
`ServerRmsVadSegmenter.process_frame`, recording every call. -/
def vadTrace (cfg : VadConfig) (s : VadState) :
    List (List ℕ × ℚ) → List TraceEntry
  | [] => []
  | (f, ts) :: rest =>
    let r := process_frame cfg s f ts
    ⟨s, f, ts, r.2, r.1⟩ :: vadTrace cfg r.1 rest

/-- Feed a list of (frame bytes, timestamp) pairs through
`RmsVadSegmenter.process_frame` (the `app/utils/vad.py` variant). -/
def vadTraceApp (cfg : VadConfig) (s : VadState) :
    List (List ℕ × ℚ) → List TraceEntry
  | [] => []
  | (f, ts) :: rest =>
    let r := process_frame_app cfg s f ts
    ⟨s, f, ts, r.2, r.1⟩ :: vadTraceApp cfg r.1 rest

/-- Boundary marker of a trace entry: `true` for `segment_start`,
`false` for `segment_end`, nothing otherwise. -/
def entryBoundary (e : TraceEntry) : Option Bool :=
  match e.event with
  | some (VadEvent.segmentStart _) => some true
  | some (VadEvent.segmentEnd _ _) => some false
  | none => none

/-- The sequence of boundary events of a trace. -/
def traceBoundaries (tr : List TraceEntry) : List Bool :=
  tr.filterMap entryBoundary

/-- `altChain speaking l` holds when, started from speaking-flag
`speaking`, the boundary sequence `l` strictly alternates: a
`segment_start` only fires from idle and a `segment_end` only from
speaking.  This is the shape "exactly one `segment_start` and exactly
one `segment_end` per speech run". -/
def altChain : Bool → List Bool → Bool
  | _, [] => true
  | false, true :: rest => altChain true rest
  | true, false :: rest => altChain false rest
  | _, _ => false

/-- A frame of clear speech under the default config: the single sample
4096, of normalized mean absolute amplitude 1/8 ≥ 0.02. -/
def speechFrame : List ℕ := [0, 16]

/-- A frame of silence: the single sample 0. -/
def silenceFrame : List ℕ := [0, 0]

example : frameIsSpeech defaultVadConfig speechFrame = true := by decide
example : frameIsSpeech defaultVadConfig silenceFrame = false := by decide

lemma first_expr (a b c : ℕ) (ts : ℚ) :
    qsub (qsub ts (qsub ((a + b : ℕ) : ℚ) (b : ℚ))) (c : ℚ) = ts - (a : ℚ) - (c : ℚ) := by
  rw [qsub_eq, qsub_eq, qsub_eq]
  push_cast
  ring

lemma process_frame_start {cfg : VadConfig} {s : VadState} {f : List ℕ} {ts : ℚ}
    {s' : VadState} {p : ℚ}
    (h : process_frame cfg s f ts = (s', some (VadEvent.segmentStart p))) :
    s.state = VadPhase.idle ∧ frameIsSpeech cfg f = true ∧
    cfg.min_speech_ms ≤ s.speech_ms + cfg.frame_ms ∧
    p = pyClamp (ts - (s.speech_ms : ℚ) - (cfg.pre_roll_ms : ℚ)) ∧
    s' = ⟨VadPhase.speaking, s.speech_ms + cfg.frame_ms, 0, some p, some ts⟩ := by
  unfold process_frame at h
  by_cases hs : frameIsSpeech cfg f
  · rw [if_pos hs] at h
    by_cases hc : s.state = VadPhase.idle ∧ cfg.min_speech_ms ≤ s.speech_ms + cfg.frame_ms
    · rw [if_pos hc] at h
      simp only [Prod.mk.injEq, Option.some.injEq, VadEvent.segmentStart.injEq] at h
      obtain ⟨h1, h2⟩ := h
      refine ⟨hc.1, hs, hc.2, ?_, ?_⟩
      · rw [← h2, first_expr]
      · rw [← h1, ← h2]
    · rw [if_neg hc] at h
      by_cases hc2 : s.state = VadPhase.speaking
      · rw [if_pos hc2] at h
        simp at h
      · rw [if_neg hc2] at h
        simp at h
  · rw [if_neg hs] at h
    by_cases hc : s.state = VadPhase.speaking ∧ cfg.end_silence_ms ≤ s.silence_ms + cfg.frame_ms
    · rw [if_pos hc] at h
      simp at h
    · rw [if_neg hc] at h
      simp at h

lemma process_frame_end {cfg : VadConfig} {s : VadState} {f : List ℕ} {ts : ℚ}
    {s' : VadState} {p q : ℚ}
    (h : process_frame cfg s f ts = (s', some (VadEvent.segmentEnd p q))) :
    s.state = VadPhase.speaking ∧ frameIsSpeech cfg f = false ∧
    cfg.end_silence_ms ≤ s.silence_ms + cfg.frame_ms ∧
    p = s.first_speech_ts_ms.getD ts ∧
    q = pyOrQ s.last_speech_ts_ms ts + (cfg.post_roll_ms : ℚ) ∧
    s' = initVadState := by
  unfold process_frame at h
  by_cases hs : frameIsSpeech cfg f
  · rw [if_pos hs] at h
    by_cases hc : s.state = VadPhase.idle ∧ cfg.min_speech_ms ≤ s.speech_ms + cfg.frame_ms
    · rw [if_pos hc] at h
      simp at h
    · rw [if_neg hc] at h
      by_cases hc2 : s.state = VadPhase.speaking
      · rw [if_pos hc2] at h
        simp at h
      · rw [if_neg hc2] at h
        simp at h
  · rw [if_neg hs] at h
    by_cases hc : s.state = VadPhase.speaking ∧ cfg.end_silence_ms ≤ s.silence_ms + cfg.frame_ms
    · rw [if_pos hc] at h
      simp only [Prod.mk.injEq, Option.some.injEq, VadEvent.segmentEnd.injEq] at h
      obtain ⟨h1, h2, h3⟩ := h
      refine ⟨hc.1, by simp [hs], hc.2, h2.symm, ?_, h1.symm⟩
      rw [← h3, qadd_eq]
    · rw [if_neg hc] at h
      simp at h

lemma process_frame_none {cfg : VadConfig} {s : VadState} {f : List ℕ} {ts : ℚ}
    {s' : VadState}
    (h : process_frame cfg s f ts = (s', none)) :
    s'.state = s.state ∧ s'.first_speech_ts_ms = s.first_speech_ts_ms ∧
    (s'.last_speech_ts_ms = s.last_speech_ts_ms ∨ s'.last_speech_ts_ms = some ts) := by
  unfold process_frame at h
  by_cases hs : frameIsSpeech cfg f
  · rw [if_pos hs] at h
    by_cases hc : s.state = VadPhase.idle ∧ cfg.min_speech_ms ≤ s.speech_ms + cfg.frame_ms
    · rw [if_pos hc] at h
      simp at h
    · rw [if_neg hc] at h
      by_cases hc2 : s.state = VadPhase.speaking
      · rw [if_pos hc2] at h
        simp only [Prod.mk.injEq] at h
        obtain ⟨h1, h2⟩ := h
        rw [← h1]
        exact ⟨rfl, rfl, Or.inr rfl⟩
      · rw [if_neg hc2] at h
        simp only [Prod.mk.injEq] at h
        obtain ⟨h1, h2⟩ := h
        rw [← h1]
        exact ⟨rfl, rfl, Or.inl rfl⟩
  · rw [if_neg hs] at h
    by_cases hc : s.state = VadPhase.speaking ∧ cfg.end_silence_ms ≤ s.silence_ms + cfg.frame_ms
    · rw [if_pos hc] at h
      simp at h
    · rw [if_neg hc] at h
      simp only [Prod.mk.injEq] at h
      obtain ⟨h1, h2⟩ := h
      rw [← h1]
      exact ⟨rfl, rfl, Or.inl rfl⟩

lemma pyClamp_eq_max (x : ℚ) : pyClamp x = max 0 x := by
  rw [pyClamp]
  split
  · exact (max_eq_left (le_of_lt (by assumption))).symm
  · exact (max_eq_right (le_of_not_lt (by assumption))).symm

lemma pyOrQ_of_pos {l : ℚ} (hl : 0 < l) (y : ℚ) : pyOrQ (some l) y = l := by
  rw [pyOrQ]
  exact if_neg (ne_of_gt hl)

lemma altChain_false_true (l : List Bool) : altChain false (true :: l) = altChain true l := rfl

lemma altChain_true_false (l : List Bool) : altChain true (false :: l) = altChain false l := rfl

lemma vadTrace_step (cfg : VadConfig) :
    ∀ (inputs : List (List ℕ × ℚ)) (s : VadState),
      ∀ e ∈ vadTrace cfg s inputs,
        process_frame cfg e.pre e.frameBytes e.ts = (e.post, e.event) := by
  intro inputs
  induction inputs with
  | nil =>
    intro s e he
    simp [vadTrace] at he
  | cons x rest ih =>
    intro s e he
    obtain ⟨f, ts⟩ := x
    rcases hr : process_frame cfg s f ts with ⟨s2, ev⟩
    have hunf : vadTrace cfg s ((f, ts) :: rest)
        = ⟨s, f, ts, ev, s2⟩ :: vadTrace cfg s2 rest := by
      simp only [vadTrace, hr]
    rw [hunf] at he
    cases he with
    | head => exact hr
    | tail _ he2 => exact ih s2 e he2

lemma altChain_vadTrace (cfg : VadConfig) :
    ∀ (inputs : List (List ℕ × ℚ)) (s : VadState),
      altChain (decide (s.state = VadPhase.speaking))
        (traceBoundaries (vadTrace cfg s inputs)) = true := by
  intro inputs
  induction inputs with
  | nil =>
    intro s
    have h0 : vadTrace cfg s [] = [] := rfl
    rw [h0, traceBoundaries]
    cases hdec : decide (s.state = VadPhase.speaking) <;> rfl
  | cons x rest ih =>
    intro s
    obtain ⟨f, ts⟩ := x
    rcases hr : process_frame cfg s f ts with ⟨s2, ev⟩
    have hunf : vadTrace cfg s ((f, ts) :: rest)
        = ⟨s, f, ts, ev, s2⟩ :: vadTrace cfg s2 rest := by
      simp only [vadTrace, hr]
    rw [hunf, traceBoundaries, List.filterMap_cons]
    rcases ev with _ | e
    · obtain ⟨hstate, -, -⟩ := process_frame_none hr
      have hdec : decide (s.state = VadPhase.speaking)
          = decide (s2.state = VadPhase.speaking) := by
        rw [hstate]
      simp only [entryBoundary]
      rw [hdec]
      have h2 := ih s2
      rw [traceBoundaries] at h2
      exact h2
    · rcases e with p | ⟨p, q⟩
      · obtain ⟨hidle, -, -, -, hs2⟩ := process_frame_start hr
        have hstate2 : s2.state = VadPhase.speaking := by rw [hs2]
        simp only [entryBoundary]
        rw [hidle]
        rw [show (decide (VadPhase.idle = VadPhase.speaking)) = false from rfl]
        rw [altChain_false_true]
        have h2 := ih s2
        rw [hstate2] at h2
        rw [show (decide (VadPhase.speaking = VadPhase.speaking)) = true from rfl] at h2
        rw [traceBoundaries] at h2
        exact h2
      · obtain ⟨hspk, -, -, -, -, hs2⟩ := process_frame_end hr
        have hstate2 : s2.state = VadPhase.idle := by rw [hs2]; rfl
        simp only [entryBoundary]
        rw [hspk]
        rw [show (decide (VadPhase.speaking = VadPhase.speaking)) = true from rfl]
        rw [altChain_true_false]
        have h2 := ih s2
        rw [hstate2] at h2
        rw [show (decide (VadPhase.idle = VadPhase.speaking)) = false from rfl] at h2
        rw [traceBoundaries] at h2
        exact h2

/-!
## Claim C1: segment_start behaviour
-/

/-- C1 (amended): on any frame sequence fed to
`ServerRmsVadSegmenter.process_frame`, boundary events strictly alternate
start/end beginning from idle (hence exactly one `segment_start` fires per
speech run), and every `segment_start` fires from the idle state at a
speech frame whose accumulated speech reaches `min_speech_ms`, with
payload `start_ms = frame_ts - (speech_ms - frame_ms) - pre_roll_ms`
clamped to ≥ 0 — equivalently `frame_ts - pre.speech_ms - pre_roll_ms`
where `pre.speech_ms` is the accumulator before the triggering frame.
The source subtracts `speech_ms - frame_ms`, not the claim's `speech_ms`. -/
theorem c1_segment_start (cfg : VadConfig) (inputs : List (List ℕ × ℚ)) :
    altChain false (traceBoundaries (vadTrace cfg initVadState inputs)) = true ∧
    ∀ e ∈ vadTrace cfg initVadState inputs, ∀ p,
      e.event = some (VadEvent.segmentStart p) →
      e.pre.state = VadPhase.idle ∧
      frameIsSpeech cfg e.frameBytes = true ∧
      cfg.min_speech_ms ≤ e.pre.speech_ms + cfg.frame_ms ∧
      p = max 0 (e.ts - (e.pre.speech_ms : ℚ) - (cfg.pre_roll_ms : ℚ)) ∧
      e.post.state = VadPhase.speaking := by
  constructor
  · have h := altChain_vadTrace cfg inputs initVadState
    rw [show (decide (initVadState.state = VadPhase.speaking)) = false from rfl] at h
    exact h
  · intro e he p hev
    have hstep := vadTrace_step cfg inputs initVadState e he
    rw [hev] at hstep
    obtain ⟨h1, h2, h3, h4, h5⟩ := process_frame_start hstep
    refine ⟨h1, h2, h3, ?_, ?_⟩
    · rw [h4, pyClamp_eq_max]
    · rw [h5]

def defaultTraceEntry : TraceEntry := ⟨initVadState, [], 0, none, initVadState⟩

/-- The C1 counterexample trace: ten clear speech frames at
1000, 1030, ..., 1270 ms. -/
def c1Inputs : List (List ℕ × ℚ) :=
  (List.range 10).map (fun i => (speechFrame, ((1000 + 30 * i : ℕ) : ℚ)))

set_option maxRecDepth 100000 in
/-- C1 counterexample: on `c1Inputs` the transition fires at the tenth
frame (`frame_ts = 1270`, accumulated `speech_ms = 300`) and the emitted
payload is 800, while the claimed formula
`frame_ts - speech_ms - pre_roll_ms = 1270 - 300 - 200` gives 770. -/
theorem c1_counterexample :
    ((vadTrace defaultVadConfig initVadState c1Inputs).getD 9 defaultTraceEntry).event
      = some (VadEvent.segmentStart 800) ∧
    (1270 : ℚ) - 300 - 200 = 770 ∧ ¬((800 : ℚ) = 770) :=
  ⟨by decide, by norm_num, by decide⟩

def c1Entry : TraceEntry :=
  (vadTrace defaultVadConfig initVadState c1Inputs).getD 9 defaultTraceEntry

set_option maxRecDepth 100000 in
/-- Witness for `c1_segment_start` at the concrete trace `c1Inputs`. -/
theorem c1_witness :
    c1Entry.pre.state = VadPhase.idle ∧
    frameIsSpeech defaultVadConfig c1Entry.frameBytes = true ∧
    defaultVadConfig.min_speech_ms ≤ c1Entry.pre.speech_ms + defaultVadConfig.frame_ms ∧
    (800 : ℚ) = max 0 (c1Entry.ts - (c1Entry.pre.speech_ms : ℚ)
      - (defaultVadConfig.pre_roll_ms : ℚ)) ∧
    c1Entry.post.state = VadPhase.speaking :=
  (c1_segment_start defaultVadConfig c1Inputs).2 c1Entry (by decide) 800 (by decide)

/-!
## Claim C3: the two accumulators
-/

/-- C3 (amended): a speech frame increments `speech_ms` and resets
`silence_ms` to 0; a silence frame increments `silence_ms` and — unless it
closes a segment, which zeroes both — leaves `speech_ms` unchanged rather
than resetting it.  So after a silence frame both accumulators can be
nonzero (see `c3_counterexample`). -/
theorem c3_accumulators (cfg : VadConfig) (s : VadState) (f : List ℕ) (ts : ℚ) :
    (frameIsSpeech cfg f = true →
      (process_frame cfg s f ts).1.speech_ms = s.speech_ms + cfg.frame_ms ∧
      (process_frame cfg s f ts).1.silence_ms = 0) ∧
    (frameIsSpeech cfg f = false →
      ((∃ p q, (process_frame cfg s f ts).2 = some (VadEvent.segmentEnd p q)) →
        (process_frame cfg s f ts).1.speech_ms = 0 ∧
        (process_frame cfg s f ts).1.silence_ms = 0) ∧
      ((process_frame cfg s f ts).2 = none →
        (process_frame cfg s f ts).1.silence_ms = s.silence_ms + cfg.frame_ms ∧
        (process_frame cfg s f ts).1.speech_ms = s.speech_ms)) := by
  constructor
  · intro hs
    unfold process_frame
    rw [if_pos hs]
    by_cases hc : s.state = VadPhase.idle ∧ cfg.min_speech_ms ≤ s.speech_ms + cfg.frame_ms
    · rw [if_pos hc]
      exact ⟨rfl, rfl⟩
    · rw [if_neg hc]
      by_cases hc2 : s.state = VadPhase.speaking
      · rw [if_pos hc2]
        exact ⟨rfl, rfl⟩
      · rw [if_neg hc2]
        exact ⟨rfl, rfl⟩
  · intro hs
    unfold process_frame
    rw [if_neg (by simp [hs])]
    by_cases hc : s.state = VadPhase.speaking ∧ cfg.end_silence_ms ≤ s.silence_ms + cfg.frame_ms
    · rw [if_pos hc]
      constructor
      · intro _
        exact ⟨rfl, rfl⟩
      · intro hnone
        simp at hnone
    · rw [if_neg hc]
      constructor
      · intro hend
        obtain ⟨p, q, hpq⟩ := hend
        simp at hpq
      · intro _
        exact ⟨rfl, rfl⟩

/-- C3 counterexample: starting from the initial state, one speech frame
(at 0 ms) followed by one idle silence frame (at 30 ms) leaves
`speech_ms = 30` and `silence_ms = 30`: the silence frame incremented
`silence_ms` but did not reset `speech_ms`, so neither accumulator is 0. -/
theorem c3_counterexample :
    (process_frame defaultVadConfig
        (process_frame defaultVadConfig initVadState speechFrame 0).1
        silenceFrame 30).1.speech_ms = 30 ∧
    (process_frame defaultVadConfig
        (process_frame defaultVadConfig initVadState speechFrame 0).1
        silenceFrame 30).1.silence_ms = 30 ∧
    ¬((process_frame defaultVadConfig
        (process_frame defaultVadConfig initVadState speechFrame 0).1
        silenceFrame 30).1.speech_ms = 0 ∨
      (process_frame defaultVadConfig
        (process_frame defaultVadConfig initVadState speechFrame 0).1
        silenceFrame 30).1.silence_ms = 0) := by
  decide

/-- Witness for `c3_accumulators`: at the initial state and a concrete
speech frame, the first branch applies. -/
theorem c3_witness :
    (process_frame defaultVadConfig initVadState speechFrame 0).1.speech_ms
      = initVadState.speech_ms + defaultVadConfig.frame_ms ∧
    (process_frame defaultVadConfig initVadState speechFrame 0).1.silence_ms = 0 :=
  (c3_accumulators defaultVadConfig initVadState speechFrame 0).1 (by decide)

/-!
## Claim C2: segment_end behaviour
-/

/-- Reachability invariant of the segmenter under positive, non-decreasing
frame timestamps bounded by `bound`: while speaking both speech timestamps
are set, ordered, positive and at most `bound`; while idle both are
cleared. -/
def VadInv (bound : ℚ) (s : VadState) : Prop :=
  (s.state = VadPhase.speaking →
    ∃ fq lq, s.first_speech_ts_ms = some fq ∧ s.last_speech_ts_ms = some lq ∧
      fq ≤ lq ∧ lq ≤ bound ∧ 0 < lq) ∧
  (s.state = VadPhase.idle →
    s.first_speech_ts_ms = none ∧ s.last_speech_ts_ms = none)

lemma VadInv_init (b : ℚ) : VadInv b initVadState := by
  constructor
  · intro h
    simp [initVadState] at h
  · intro _
    exact ⟨rfl, rfl⟩

lemma vadPhase_not_speaking {p : VadPhase} (h : ¬p = VadPhase.speaking) :
    p = VadPhase.idle := by
  cases p
  · rfl
  · exact absurd rfl h

lemma VadInv_step (cfg : VadConfig) {b ts : ℚ} {s : VadState}
    (hinv : VadInv b s) (hble : b ≤ ts) (hpos : 0 < ts) (f : List ℕ) :
    VadInv ts (process_frame cfg s f ts).1 := by
  unfold process_frame
  by_cases hs : frameIsSpeech cfg f
  · rw [if_pos hs]
    by_cases hc : s.state = VadPhase.idle ∧ cfg.min_speech_ms ≤ s.speech_ms + cfg.frame_ms
    · rw [if_pos hc]
      constructor
      · intro _
        refine ⟨_, ts, rfl, rfl, ?_, le_refl ts, hpos⟩
        apply pyClamp_le
        · rw [first_expr]
          have h1 : (0 : ℚ) ≤ (s.speech_ms : ℚ) := by positivity
          have h2 : (0 : ℚ) ≤ (cfg.pre_roll_ms : ℚ) := by positivity
          linarith
        · exact le_of_lt hpos
      · intro h
        simp at h
    · rw [if_neg hc]
      by_cases hc2 : s.state = VadPhase.speaking
      · rw [if_pos hc2]
        obtain ⟨fq, lq, hf, hl, hfl, hlb, hlpos⟩ := hinv.1 hc2
        constructor
        · intro _
          exact ⟨fq, ts, hf, rfl, le_trans hfl (le_trans hlb hble), le_refl ts, hpos⟩
        · intro h
          rw [hc2] at h
          simp at h
      · rw [if_neg hc2]
        have hidle := vadPhase_not_speaking hc2
        obtain ⟨hf, hl⟩ := hinv.2 hidle
        constructor
        · intro h
          exact absurd h hc2
        · intro _
          exact ⟨hf, hl⟩
  · rw [if_neg hs]
    by_cases hc : s.state = VadPhase.speaking ∧ cfg.end_silence_ms ≤ s.silence_ms + cfg.frame_ms
    · rw [if_pos hc]
      exact VadInv_init ts
    · rw [if_neg hc]
      constructor
      · intro hspk
        obtain ⟨fq, lq, hf, hl, hfl, hlb, hlpos⟩ := hinv.1 hspk
        exact ⟨fq, lq, hf, hl, hfl, le_trans hlb hble, hlpos⟩
      · intro hidle
        exact hinv.2 hidle

lemma vadTrace_inv (cfg : VadConfig) :
    ∀ (inputs : List (List ℕ × ℚ)) (s : VadState) (b : ℚ),
      VadInv b s → (∀ x ∈ inputs, 0 < x.2) →
      List.Chain (fun a c : ℚ => a ≤ c) b (inputs.map (fun x => x.2)) →
      ∀ e ∈ vadTrace cfg s inputs,
        (∃ b2, b2 ≤ e.ts ∧ VadInv b2 e.pre) ∧ 0 < e.ts := by
  intro inputs
  induction inputs with
  | nil =>
    intro s b _ _ _ e he
    simp [vadTrace] at he
  | cons x rest ih =>
    intro s b hinv hpos hchain e he
    obtain ⟨f, ts⟩ := x
    rcases hr : process_frame cfg s f ts with ⟨s2, ev⟩
    have hunf : vadTrace cfg s ((f, ts) :: rest)
        = ⟨s, f, ts, ev, s2⟩ :: vadTrace cfg s2 rest := by
      simp only [vadTrace, hr]
    rw [hunf] at he
    rw [List.map_cons] at hchain
    have hb_ts : b ≤ ts := by
      cases hchain with
      | cons hb _ => exact hb
    have hts_pos : 0 < ts := hpos (f, ts) (List.mem_cons_self _ _)
    cases he with
    | head =>
      exact ⟨⟨b, hb_ts, hinv⟩, hts_pos⟩
    | tail _ he2 =>
      have hinv2 : VadInv ts s2 := by
        have := VadInv_step cfg hinv hb_ts hts_pos f
        rw [hr] at this
        exact this
      have hchain2 : List.Chain (fun a c : ℚ => a ≤ c) ts (rest.map (fun x => x.2)) := by
        cases hchain with
        | cons _ hc => exact hc
      exact ih s2 ts hinv2 (fun y hy => hpos y (List.mem_cons_of_mem _ hy)) hchain2 e he2

/-- C2 (amended): feed `ServerRmsVadSegmenter.process_frame` any frame
sequence whose timestamps are positive and non-decreasing.  Boundary
events strictly alternate (so exactly one `segment_end` fires per speech
run, at the silence frame where accumulated silence reaches
`end_silence_ms` while speaking), the payload satisfies
`end_ms = last_speech_ts + post_roll_ms` and `start_ms ≤ end_ms`, and the
emitting call resets the state to the freshly initialized one
(idle, both accumulators 0, both timestamps cleared).  Without the
timestamp hypotheses the payload clauses fail (see `c2_counterexample`);
in `RmsVadSegmenter` (`app/utils/vad.py`) the falsy `or` start fallback
additionally breaks `start_ms ≤ end_ms` whenever the emitted start was
clamped to 0 (see `c10_counterexample`). -/
theorem c2_segment_end (cfg : VadConfig) (inputs : List (List ℕ × ℚ))
    (hpos : ∀ x ∈ inputs, 0 < x.2)
    (hmono : List.Chain (fun a c : ℚ => a ≤ c) 0 (inputs.map (fun x => x.2))) :
    altChain false (traceBoundaries (vadTrace cfg initVadState inputs)) = true ∧
    ∀ e ∈ vadTrace cfg initVadState inputs, ∀ p q,
      e.event = some (VadEvent.segmentEnd p q) →
      e.pre.state = VadPhase.speaking ∧
      cfg.end_silence_ms ≤ e.pre.silence_ms + cfg.frame_ms ∧
      (∃ l, e.pre.last_speech_ts_ms = some l ∧ q = l + (cfg.post_roll_ms : ℚ)) ∧
      p ≤ q ∧
      e.post = initVadState := by
  constructor
  · have h := altChain_vadTrace cfg inputs initVadState
    rw [show (decide (initVadState.state = VadPhase.speaking)) = false from rfl] at h
    exact h
  · intro e he p q hev
    have hstep := vadTrace_step cfg inputs initVadState e he
    rw [hev] at hstep
    obtain ⟨h1, _, h3, h4, h5, h6⟩ := process_frame_end hstep
    obtain ⟨⟨b2, hb2, hinv⟩, _⟩ :=
      vadTrace_inv cfg inputs initVadState 0 (VadInv_init 0) hpos hmono e he
    obtain ⟨fq, lq, hf, hl, hfl, hlb, hlpos⟩ := hinv.1 h1
    have hp : p = fq := by
      rw [h4, hf]
      rfl
    have hq : q = lq + (cfg.post_roll_ms : ℚ) := by
      rw [h5, hl, pyOrQ_of_pos hlpos]
    refine ⟨h1, h3, ⟨lq, hl, hq⟩, ?_, h6⟩
    rw [hp, hq]
    have : (0 : ℚ) ≤ (cfg.post_roll_ms : ℚ) := by positivity
    linarith

/-- Boolean version of `List.Chain (· ≤ ·)` on `ℚ`, for kernel
evaluation on concrete traces. -/
def chainLeB : ℚ → List ℚ → Bool
  | _, [] => true
  | a, b :: l => decide (a ≤ b) && chainLeB b l

lemma chain_of_chainLeB : ∀ {l : List ℚ} {a : ℚ}, chainLeB a l = true →
    List.Chain (fun x y : ℚ => x ≤ y) a l := by
  intro l
  induction l with
  | nil =>
    intro a _
    exact List.Chain.nil
  | cons b rest ih =>
    intro a h
    rw [chainLeB, Bool.and_eq_true] at h
    exact List.Chain.cons (of_decide_eq_true h.1) (ih h.2)

/-- The C2 counterexample trace: the `c1Inputs` run, then a speech frame
with a decreasing timestamp (100 ms), then 27 silence frames from 2000 ms. -/
def c2CounterInputs : List (List ℕ × ℚ) :=
  c1Inputs ++ [(speechFrame, 100)] ++
    (List.range 27).map (fun i => (silenceFrame, ((2000 + 30 * i : ℕ) : ℚ)))

set_option maxRecDepth 100000 in
/-- C2 counterexample: with a non-monotone timestamp sequence the closing
frame emits `segment_end` with `start_ms = 800` and
`end_ms = last_speech_ts + post_roll_ms = 100 + 300 = 400 < start_ms`,
so `end_ms ≥ start_ms` fails as claimed for arbitrary frame sequences. -/
theorem c2_counterexample :
    ((vadTrace defaultVadConfig initVadState c2CounterInputs).getD 37
        defaultTraceEntry).event = some (VadEvent.segmentEnd 800 400) ∧
    ¬((800 : ℚ) ≤ 400) := by
  decide

/-- The C2 witness trace: ten speech frames at 1000..1270 ms followed by
27 silence frames at 1300..2080 ms — positive, non-decreasing. -/
def c2WitnessInputs : List (List ℕ × ℚ) :=
  c1Inputs ++ (List.range 27).map (fun i => (silenceFrame, ((1300 + 30 * i : ℕ) : ℚ)))

def c2Entry : TraceEntry :=
  (vadTrace defaultVadConfig initVadState c2WitnessInputs).getD 36 defaultTraceEntry

set_option maxRecDepth 100000 in
/-- Witness for `c2_segment_end` at the concrete trace `c2WitnessInputs`:
the segment closes at the 27th silence frame with payload
`[800, 1570 = 1270 + 300]`. -/
theorem c2_witness :
    altChain false (traceBoundaries
      (vadTrace defaultVadConfig initVadState c2WitnessInputs)) = true ∧
    (c2Entry.pre.state = VadPhase.speaking ∧
      defaultVadConfig.end_silence_ms
        ≤ c2Entry.pre.silence_ms + defaultVadConfig.frame_ms ∧
      (∃ l, c2Entry.pre.last_speech_ts_ms = some l ∧
        (1570 : ℚ) = l + (defaultVadConfig.post_roll_ms : ℚ)) ∧
      (800 : ℚ) ≤ 1570 ∧
      c2Entry.post = initVadState) := by
  have h := c2_segment_end defaultVadConfig c2WitnessInputs (by decide)
    (chain_of_chainLeB (by decide))
  exact ⟨h.1, h.2 c2Entry (by decide) 800 1570 (by decide)⟩

/-!
## Claim C10: the speaking/first_speech link
-/

/-- The state link asserted by claim C10: the segmenter is speaking
exactly when `first_speech_ts_ms` is set, and then `last_speech_ts_ms`
is set too. -/
def VadStateLink (s : VadState) : Prop :=
  (s.state = VadPhase.speaking ↔ s.first_speech_ts_ms.isSome = true) ∧
  (s.state = VadPhase.speaking → s.last_speech_ts_ms.isSome = true)

lemma VadStateLink_init : VadStateLink initVadState := by
  constructor
  · constructor
    · intro h
      simp [initVadState] at h
    · intro h
      simp [initVadState] at h
  · intro h
    simp [initVadState] at h

/-- C10 (amended): `process_frame` of `ServerRmsVadSegmenter` preserves
the link "state == speaking iff first_speech_ts_ms is set (and then
last_speech_ts_ms is set)"; a `segment_start` stores its payload in
`first_speech_ts_ms`; an event-free call leaves `first_speech_ts_ms`
unchanged; and a `segment_end` carries exactly the stored
`first_speech_ts_ms` as its start.  Hence the start in every
`segment_end` payload equals the value emitted by the matching
`segment_start`.  For `RmsVadSegmenter` (`app/utils/vad.py`) the last
clause fails when the emitted start is `0.0`, because its falsy `or`
fallback replaces it with the closing frame timestamp
(see `c10_counterexample`). -/
theorem c10_link (cfg : VadConfig) (s : VadState) (f : List ℕ) (ts : ℚ)
    (hlink : VadStateLink s) :
    VadStateLink (process_frame cfg s f ts).1 ∧
    (∀ p, (process_frame cfg s f ts).2 = some (VadEvent.segmentStart p) →
      (process_frame cfg s f ts).1.first_speech_ts_ms = some p) ∧
    ((process_frame cfg s f ts).2 = none →
      (process_frame cfg s f ts).1.first_speech_ts_ms = s.first_speech_ts_ms) ∧
    (∀ p q, (process_frame cfg s f ts).2 = some (VadEvent.segmentEnd p q) →
      s.first_speech_ts_ms = some p) := by
  rcases hr : process_frame cfg s f ts with ⟨s2, ev⟩
  rcases ev with _ | e
  · obtain ⟨hstate, hfirst, hlast⟩ := process_frame_none hr
    refine ⟨⟨?_, ?_⟩, ?_, ?_, ?_⟩
    · rw [hstate, hfirst]
      exact hlink.1
    · intro hsp
      rw [hstate] at hsp
      rcases hlast with hl | hl
      · rw [hl]
        exact hlink.2 hsp
      · rw [hl]
        rfl
    · intro p hp
      simp at hp
    · exact fun _ => hfirst
    · intro p q hpq
      simp at hpq
  · rcases e with p0 | ⟨p0, q0⟩
    · obtain ⟨h1, h2, h3, h4, h5⟩ := process_frame_start hr
      refine ⟨⟨?_, ?_⟩, ?_, ?_, ?_⟩
      · rw [h5]
        simp
      · intro _
        rw [h5]
        rfl
      · intro p hp
        simp only [Option.some.injEq, VadEvent.segmentStart.injEq] at hp
        rw [h5, ← hp]
      · intro hnone
        simp at hnone
      · intro p q hpq
        simp at hpq
    · obtain ⟨h1, h2, h3, h4, h5, h6⟩ := process_frame_end hr
      refine ⟨?_, ?_, ?_, ?_⟩
      · rw [h6]
        exact VadStateLink_init
      · intro p hp
        simp at hp
      · intro hnone
        simp at hnone
      · intro p q hpq
        simp only [Option.some.injEq, VadEvent.segmentEnd.injEq] at hpq
        obtain ⟨hp, hq⟩ := hpq
        obtain ⟨fq, hfq⟩ := Option.isSome_iff_exists.mp (hlink.1.mp h1)
        rw [hfq]
        rw [← hp, h4, hfq]
        rfl

/-- The C10 counterexample trace: ten speech frames at 10..280 ms (the
emitted start clamps to 0), then 27 silence frames at 310..1090 ms. -/
def c10Inputs : List (List ℕ × ℚ) :=
  (List.range 10).map (fun i => (speechFrame, ((10 + 30 * i : ℕ) : ℚ))) ++
    (List.range 27).map (fun i => (silenceFrame, ((310 + 30 * i : ℕ) : ℚ)))

set_option maxRecDepth 100000 in
/-- C10 counterexample, against `RmsVadSegmenter.process_frame`
(`app/utils/vad.py`): the `segment_start` payload is 0, but the matching
`segment_end` carries `segment_start_ms = 1090` (the closing frame
timestamp), because `first_speech_ts_ms or frame_start_ts_ms` treats the
stored `0.0` as falsy.  So the start carried by `segment_end` differs
from the emitted start. -/
theorem c10_counterexample :
    ((vadTraceApp defaultVadConfig initVadState c10Inputs).getD 9
        defaultTraceEntry).event = some (VadEvent.segmentStart 0) ∧
    ((vadTraceApp defaultVadConfig initVadState c10Inputs).getD 36
        defaultTraceEntry).event = some (VadEvent.segmentEnd 1090 580) ∧
    ¬((1090 : ℚ) = 0) := by
  decide

/-- Witness for `c10_link` at the initial state and a concrete speech
frame. -/
theorem c10_witness :
    VadStateLink (process_frame defaultVadConfig initVadState speechFrame 0).1 :=
  (c10_link defaultVadConfig initVadState speechFrame 0 VadStateLink_init).1

/-!
## Claim C4: bounded buffers under backpressure

`websocket_endpoint` in `src/server/main.py`: the `imageFrame` branch
(lines 203-212) and the `audioChunk` branch (lines 224-229).
-/

/-- The status/error messages the buffer paths can emit.  The source
sends `{"type": "status", "state": "busy", "droppedFrames": k}` (resp.
`droppedAudioChunks`); `errorMsg` models a `{"type": "error", ...}`
message, which these paths never produce. -/
inductive WsOut
  | statusBusyDroppedFrames (k : ℕ)
  | statusBusyDroppedAudioChunks (k : ℕ)
  | errorMsg
deriving DecidableEq

/-- Whether a message is an error message. -/
def WsOut.isError : WsOut → Bool
  | WsOut.errorMsg => true
  | _ => false

/-- The `imageFrame` branch: append `(ts, jpeg_bytes)`, and when the
length exceeds `max_frames_buffer` drop the oldest entries down to the
maximum and send a busy status carrying the drop count. -/
def append_frame (frames : List (ℚ × List ℕ)) (ts : ℚ) (jpeg : List ℕ)
    (max_frames_buffer : ℕ) : List (ℚ × List ℕ) × List WsOut :=
  let buf := frames ++ [(ts, jpeg)]
  if max_frames_buffer < buf.length then
    (buf.drop (buf.length - max_frames_buffer),
      [WsOut.statusBusyDroppedFrames (buf.length - max_frames_buffer)])
  else (buf, [])

/-- The `audioChunk` branch (buffering part): append
`(ts_start, pcm, num_samples, sample_rate)` with the same eviction
policy, reporting `droppedAudioChunks`. -/
def append_audio_chunk (chunks : List (ℚ × List ℕ × ℕ × ℕ)) (ts : ℚ)
    (pcm : List ℕ) (num_samples sample_rate : ℕ)
    (max_audio_chunks : ℕ) : List (ℚ × List ℕ × ℕ × ℕ) × List WsOut :=
  let buf := chunks ++ [(ts, pcm, num_samples, sample_rate)]
  if max_audio_chunks < buf.length then
    (buf.drop (buf.length - max_audio_chunks),
      [WsOut.statusBusyDroppedAudioChunks (buf.length - max_audio_chunks)])
  else (buf, [])

/-- C4: after any frame or audio-chunk append the buffer length is at
most the configured maximum; when the append exceeded it, exactly the
oldest `k = length - maximum` entries are evicted so the length equals
the maximum, and `k` is reported in a busy *status* message
(`droppedFrames` / `droppedAudioChunks`), never as an error message. -/
theorem c4_backpressure (frames : List (ℚ × List ℕ)) (ts : ℚ) (jpeg : List ℕ)
    (maxF : ℕ) (chunks : List (ℚ × List ℕ × ℕ × ℕ)) (tsa : ℚ) (pcm : List ℕ)
    (num sr maxA : ℕ) :
    ((append_frame frames ts jpeg maxF).1.length ≤ maxF ∧
      (maxF < frames.length + 1 →
        (append_frame frames ts jpeg maxF).1.length = maxF ∧
        (append_frame frames ts jpeg maxF).1
          = (frames ++ [(ts, jpeg)]).drop (frames.length + 1 - maxF) ∧
        (append_frame frames ts jpeg maxF).2
          = [WsOut.statusBusyDroppedFrames (frames.length + 1 - maxF)] ∧
        ∀ m ∈ (append_frame frames ts jpeg maxF).2, m.isError = false) ∧
      (¬maxF < frames.length + 1 →
        (append_frame frames ts jpeg maxF).1 = frames ++ [(ts, jpeg)] ∧
        (append_frame frames ts jpeg maxF).2 = [])) ∧
    ((append_audio_chunk chunks tsa pcm num sr maxA).1.length ≤ maxA ∧
      (maxA < chunks.length + 1 →
        (append_audio_chunk chunks tsa pcm num sr maxA).1.length = maxA ∧
        (append_audio_chunk chunks tsa pcm num sr maxA).1
          = (chunks ++ [(tsa, pcm, num, sr)]).drop (chunks.length + 1 - maxA) ∧
        (append_audio_chunk chunks tsa pcm num sr maxA).2
          = [WsOut.statusBusyDroppedAudioChunks (chunks.length + 1 - maxA)] ∧
        ∀ m ∈ (append_audio_chunk chunks tsa pcm num sr maxA).2,
          m.isError = false) ∧
      (¬maxA < chunks.length + 1 →
        (append_audio_chunk chunks tsa pcm num sr maxA).1
          = chunks ++ [(tsa, pcm, num, sr)] ∧
        (append_audio_chunk chunks tsa pcm num sr maxA).2 = [])) := by
  constructor
  · unfold append_frame
    have hlen : (frames ++ [(ts, jpeg)]).length = frames.length + 1 := by
      simp
    by_cases hb : maxF < (frames ++ [(ts, jpeg)]).length
    · rw [if_pos hb]
      rw [hlen] at hb
      refine ⟨?_, ?_, ?_⟩
      · rw [List.length_drop, hlen]
        omega
      · intro _
        refine ⟨?_, by rw [hlen], by rw [hlen], ?_⟩
        · rw [List.length_drop, hlen]
          omega
        · intro m hm
          rw [hlen] at hm
          simp at hm
          rw [hm]
          rfl
      · intro hc
        exact absurd hb hc
    · rw [if_neg hb]
      rw [hlen] at hb
      refine ⟨?_, ?_, ?_⟩
      · rw [hlen]
        omega
      · intro hc
        exact absurd hc hb
      · intro _
        exact ⟨rfl, rfl⟩
  · unfold append_audio_chunk
    have hlen : (chunks ++ [(tsa, pcm, num, sr)]).length = chunks.length + 1 := by
      simp
    by_cases hb : maxA < (chunks ++ [(tsa, pcm, num, sr)]).length
    · rw [if_pos hb]
      rw [hlen] at hb
      refine ⟨?_, ?_, ?_⟩
      · rw [List.length_drop, hlen]
        omega
      · intro _
        refine ⟨?_, by rw [hlen], by rw [hlen], ?_⟩
        · rw [List.length_drop, hlen]
          omega
        · intro m hm
          rw [hlen] at hm
          simp at hm
          rw [hm]
          rfl
      · intro hc
        exact absurd hb hc
    · rw [if_neg hb]
      rw [hlen] at hb
      refine ⟨?_, ?_, ?_⟩
      · rw [hlen]
        omega
      · intro hc
        exact absurd hc hb
      · intro _
        exact ⟨rfl, rfl⟩

/-- Witness for `c4_backpressure`: a two-frame buffer with maximum 2
overflows on append, ends at length 2 and reports one dropped frame as a
busy status. -/
theorem c4_witness :
    (append_frame [(0, [1]), (1, [2])] 2 [3] 2).1.length = 2 ∧
    (append_frame [(0, [1]), (1, [2])] 2 [3] 2).1
      = ([((0 : ℚ), [1]), (1, [2])] ++ [((2 : ℚ), [3])]).drop (2 + 1 - 2) ∧
    (append_frame [(0, [1]), (1, [2])] 2 [3] 2).2
      = [WsOut.statusBusyDroppedFrames (2 + 1 - 2)] ∧
    ∀ m ∈ (append_frame [(0, [1]), (1, [2])] 2 [3] 2).2, m.isError = false := by
  have h := (c4_backpressure [(0, [1]), (1, [2])] 2 [3] 2 [] 0 [] 0 0 0).1.2.1
  exact h (by decide)

/-!
## The media encoder

`src/server/media_encoder.py` and the line-for-line equivalent
`MediaEncoder` in `src/server/app/utils/media_encoder.py`.  File writes
are dropped from the model: a selected frame is represented by its bytes
instead of the path it is written to, and the external `ffmpeg` process
is represented by its exit status, passed in as a parameter.
-/

/-- A buffered audio chunk `(tsStartMs, pcm_bytes, num_samples,
sample_rate)`. -/
structure AudioChunk where
  tsStartMs : ℚ
  pcm : List ℕ
  numSamples : ℕ
  sampleRate : ℕ
deriving DecidableEq

/-- End timestamp of a chunk: `ts_start + (num_samples / sr) * 1000`. -/
def chunkEndMs (c : AudioChunk) : ℚ :=
  qadd c.tsStartMs (qmul (qdiv (c.numSamples : ℚ) (c.sampleRate : ℚ)) 1000)

lemma chunkEndMs_eq (c : AudioChunk) :
    chunkEndMs c = c.tsStartMs + ((c.numSamples : ℚ) / (c.sampleRate : ℚ)) * 1000 := by
  rw [chunkEndMs, qadd_eq, qmul_eq, qdiv_eq]

/-- The body of the chunk loop of `extract_audio_segment_bytes`
(`media_encoder.py` lines 38-55): skip rate-mismatched chunks and chunks
not overlapping the window, otherwise slice the byte range corresponding
to the ms-offset intersection. -/
def chunkContribution (sr : ℕ) (segment_start_ms segment_end_ms : ℚ)
    (c : AudioChunk) : List ℕ :=
  if c.sampleRate ≠ sr then []
  else
    let durMs := qmul (qdiv (c.numSamples : ℚ) (sr : ℚ)) 1000
    let tsEnd := qadd c.tsStartMs durMs
    if tsEnd ≤ segment_start_ms ∨ segment_end_ms ≤ c.tsStartMs then []
    else
      let startOffsetMs := qmax 0 (qsub segment_start_ms c.tsStartMs)
      let endOffsetMs := qmax 0 (qsub tsEnd (qmin tsEnd segment_end_ms))
      let startSample := pyInt (qmul (qdiv startOffsetMs 1000) (sr : ℚ))
      let endSampleExclusive :=
        pyInt (qsub (c.numSamples : ℚ) (qmul (qdiv endOffsetMs 1000) (sr : ℚ)))
      let startByte := startSample * 2
      let endByte := endSampleExclusive * 2
      if startByte < endByte ∧ endByte ≤ (c.pcm.length : ℤ) then
        (c.pcm.drop startByte.toNat).take (endByte - startByte).toNat
      else []

/-- `extract_audio_segment_bytes` (`media_encoder.py` lines 24-56):
returns the concatenated in-window byte slices and the first chunk's
sample rate (defaulting to 16000 for an empty list). -/
def extract_audio_segment_bytes (chunks : List AudioChunk)
    (segment_start_ms segment_end_ms : ℚ) : List ℕ × ℕ :=
  match chunks with
  | [] => ([], 16000)
  | c0 :: _ =>
    ((chunks.map (chunkContribution c0.sampleRate segment_start_ms segment_end_ms)).flatten,
      c0.sampleRate)

/-- The duration reported by `write_wav_mono_16k`:
`(len(pcm)//2 / sample_rate) * 1000`. -/
def write_wav_duration_ms (pcm : List ℕ) (sample_rate : ℕ) : ℚ :=
  qmul (qdiv ((pcm.length / 2 : ℕ) : ℚ) (sample_rate : ℚ)) 1000

/-- Stable insertion into a timestamp-sorted frame list (helper for
`sortByTs`). -/
def insertByTs (sorted : List (ℚ × List ℕ)) (x : ℚ × List ℕ) :
    List (ℚ × List ℕ) :=
  match sorted with
  | [] => [x]
  | y :: ys => if y.1 ≤ x.1 then y :: insertByTs ys x else x :: y :: ys

/-- `sorted(frames, key=lambda x: x[0])`: Python's sort is stable, so the
model is a stable insertion sort by timestamp. -/
def sortByTs (l : List (ℚ × List ℕ)) : List (ℚ × List ℕ) :=
  l.foldl insertByTs []

/-- The forward scan of `select_frames_for_segment`: the first index
`j ≥ idx` whose frame has `ts ≥ t`.  The second argument of the
recursion is the absolute index of the current head. -/
def findGE : List (ℚ × List ℕ) → ℚ → ℕ → Option (ℕ × List ℕ)
  | [], _, _ => none
  | (ts, d) :: rest, t, j => if t ≤ ts then some (j, d) else findGE rest t (j + 1)

/-- The `while t <= segment_end_ms + 1e-6` loop of
`select_frames_for_segment`, with an explicit iteration bound (the
Python loop terminates exactly when the step `1000/encode_fps` is
positive, and the wrapper below supplies a bound covering all
iterations in that case).  Selected frames keep their bytes in place of
the written file path; each carries duration `step_ms / 1000` seconds. -/
def selectLoop (framesSorted : List (ℚ × List ℕ)) (segment_end_ms step_ms : ℚ) :
    ℕ → ℚ → ℕ → Option (List ℕ) → List (List ℕ × ℚ)
  | 0, _, _, _ => []
  | fuel + 1, t, idx, lastSel =>
    if t ≤ qadd segment_end_ms (mkRat 1 1000000) then
      match findGE (framesSorted.drop idx) t idx with
      | some (j, d) =>
        (d, qdiv step_ms 1000) ::
          selectLoop framesSorted segment_end_ms step_ms fuel (qadd t step_ms) j (some d)
      | none =>
        match lastSel with
        | some d =>
          (d, qdiv step_ms 1000) ::
            selectLoop framesSorted segment_end_ms step_ms fuel (qadd t step_ms) idx lastSel
        | none => []
    else []

/-- `select_frames_for_segment` (`media_encoder.py` lines 70-114). -/
def select_frames_for_segment (frames : List (ℚ × List ℕ))
    (segment_start_ms segment_end_ms encode_fps : ℚ) :
    List (List ℕ × ℚ) × ℕ :=
  if frames = [] ∨ segment_end_ms ≤ segment_start_ms then ([], 0)
  else
    let framesSorted := sortByTs frames
    let step_ms := qdiv 1000 encode_fps
    let fuel :=
      (pyInt (qdiv (qsub (qadd segment_end_ms (mkRat 1 1000000)) segment_start_ms)
        step_ms)).toNat + 2
    let sel := selectLoop framesSorted segment_end_ms step_ms fuel segment_start_ms 0 none
    (sel, sel.length)

/-- The duration-correction step (`media_encoder.py` lines 177-184, and
`MediaEncoder._adjust_frame_durations`): when at least one frame was
selected and `audio_ms > 0`, and the difference between
`audio_ms / 1000` and the summed durations exceeds 1 ms, add the
difference to the last selected frame's duration with a 10 ms floor. -/
def adjust_frame_durations (selected : List (List ℕ × ℚ)) (audio_ms : ℚ) :
    List (List ℕ × ℚ) :=
  match selected.getLast? with
  | none => selected
  | some (d, dur) =>
    if audio_ms ≤ 0 then selected
    else
      let total := qsum (selected.map (fun x => x.2))
      let desired := qdiv audio_ms 1000
      let diff := qsub desired total
      if mkRat 1 1000 < qabs diff then
        selected.dropLast ++ [(d, qmax (mkRat 1 100) (qadd dur diff))]
      else selected

/-- The failure raised by `mux_to_webm` when `ffmpeg` exits non-zero. -/
inductive MuxError
  | ffmpegFailed (returncode : ℕ)
deriving DecidableEq

/-- `mux_to_webm` (`media_encoder.py` lines 133-157), with the external
process represented by its exit status: non-zero raises. -/
def mux_to_webm (exitCode : ℕ) : Except MuxError Unit :=
  if exitCode ≠ 0 then Except.error (MuxError.ffmpegFailed exitCode)
  else Except.ok ()

/-- `EncodeResult`, extended with the data the claims observe: the
adjusted frame-sequence descriptor (the contents of the concat file) and
the extracted PCM (the contents of `audio.wav`).  The artifact and wav
paths are file-system state, outside the model. -/
structure EncodeResult where
  frame_count : ℕ
  audio_ms : ℚ
  fps : ℚ
  selected : List (List ℕ × ℚ)
  pcm : List ℕ
  sample_rate : ℕ
deriving DecidableEq

/-- `encode_segment` (`media_encoder.py` lines 160-190): extract audio,
select frames, correct durations, and mux — but only when at least one
frame was selected; a mux failure propagates, and with zero frames the
function returns normally with `frame_count = 0`. -/
def encode_segment (frames : List (ℚ × List ℕ)) (audio_chunks : List AudioChunk)
    (seg_start_ms seg_end_ms encode_fps : ℚ) (muxExitCode : ℕ) :
    Except MuxError EncodeResult :=
  let ext := extract_audio_segment_bytes audio_chunks seg_start_ms seg_end_ms
  let audio_ms := write_wav_duration_ms ext.1 ext.2
  let selres := select_frames_for_segment frames seg_start_ms seg_end_ms encode_fps
  let adjusted := adjust_frame_durations selres.1 audio_ms
  if 0 < selres.2 then
    match mux_to_webm muxExitCode with
    | Except.error e => Except.error e
    | Except.ok _ =>
      Except.ok ⟨selres.2, audio_ms, encode_fps, adjusted, ext.1, ext.2⟩
  else Except.ok ⟨selres.2, audio_ms, encode_fps, adjusted, ext.1, ext.2⟩

instance {ε α : Type} [DecidableEq ε] [DecidableEq α] : DecidableEq (Except ε α) :=
  fun a b =>
    match a, b with
    | Except.error x, Except.error y =>
      if h : x = y then isTrue (by rw [h])
      else isFalse (fun hc => h (by injection hc))
    | Except.ok x, Except.ok y =>
      if h : x = y then isTrue (by rw [h])
      else isFalse (fun hc => h (by injection hc))
    | Except.error _, Except.ok _ => isFalse (fun hc => by injection hc)
    | Except.ok _, Except.error _ => isFalse (fun hc => by injection hc)

example : encode_segment [] [] 0 1000 1 7 = Except.ok ⟨0, 0, 1, [], [], 16000⟩ := by
  decide

example :
    encode_segment [((0 : ℚ), [7])] [] 0 1000 1 0
      = Except.ok ⟨2, 0, 1, [([7], 1), ([7], 1)], [], 16000⟩ := by
  decide

/-!
## Claim C7: encode failure behaviour
-/

/-- C7 (amended): when at least one frame was selected and the mux
process exits non-zero, `encode_segment` raises (the `RuntimeError` from
`mux_to_webm` propagates to the caller — it is never swallowed); but when
*zero* frames were selected, `encode_segment` does *not* raise: it skips
muxing entirely and returns a normal `EncodeResult` with
`frame_count = 0` (this is what the audio-only response path relies
on). -/
theorem c7_encode_failure (frames : List (ℚ × List ℕ))
    (audio_chunks : List AudioChunk) (seg_start_ms seg_end_ms encode_fps : ℚ)
    (exitCode : ℕ) :
    (0 < (select_frames_for_segment frames seg_start_ms seg_end_ms encode_fps).2 ∧
        exitCode ≠ 0 →
      encode_segment frames audio_chunks seg_start_ms seg_end_ms encode_fps exitCode
        = Except.error (MuxError.ffmpegFailed exitCode)) ∧
    ((select_frames_for_segment frames seg_start_ms seg_end_ms encode_fps).2 = 0 →
      ∃ r, encode_segment frames audio_chunks seg_start_ms seg_end_ms encode_fps exitCode
          = Except.ok r ∧ r.frame_count = 0) := by
  constructor
  · intro hc
    unfold encode_segment
    rw [if_pos hc.1]
    rw [show mux_to_webm exitCode = Except.error (MuxError.ffmpegFailed exitCode) from
      by rw [mux_to_webm, if_pos hc.2]]
  · intro hz
    unfold encode_segment
    rw [if_neg (by omega)]
    exact ⟨_, rfl, hz⟩

/-- C7 counterexample: an encode invocation with zero frames selected
(empty frame window) returns a normal `EncodeResult` with
`frame_count = 0` instead of raising — even with a would-be failing mux
exit status 7, because muxing is skipped entirely. -/
theorem c7_counterexample :
    encode_segment [] [] 0 1000 1 7 = Except.ok ⟨0, 0, 1, [], [], 16000⟩ := by
  decide

/-- Witness for `c7_encode_failure`: one frame selected and exit status 1
raises; an empty frame window returns `frame_count = 0`. -/
theorem c7_witness :
    encode_segment [((0 : ℚ), [7])] [] 0 1000 1 1
      = Except.error (MuxError.ffmpegFailed 1) ∧
    (∃ r, encode_segment [] [] 0 2000 1 1 = Except.ok r ∧ r.frame_count = 0) :=
  ⟨(c7_encode_failure [((0 : ℚ), [7])] [] 0 1000 1 1).1 ⟨by decide, by decide⟩,
    (c7_encode_failure [] [] 0 2000 1 1).2 (by decide)⟩

/-!
## Claim C6: duration correction
-/

/-- C6 (amended): whenever at least one frame was selected, `audio_ms`
is positive, and the corrected duration of the last frame does not hit
the 10 ms floor, the adjusted durations sum to `audio_ms / 1000` within
1 ms.  Without `audio_ms > 0` the correction step is skipped entirely,
and when the floor binds the sum may differ from the audio duration by
more than 1 ms (see `c6_counterexample`). -/
theorem c6_duration_correction (selected : List (List ℕ × ℚ)) (audio_ms : ℚ)
    (d : List ℕ) (dur : ℚ)
    (hlast : selected.getLast? = some (d, dur))
    (hpos : 0 < audio_ms)
    (hfloor : mkRat 1 100
      ≤ dur + (audio_ms / 1000 - ((selected.map (fun x => x.2)).sum))) :
    |((adjust_frame_durations selected audio_ms).map (fun x => x.2)).sum
        - audio_ms / 1000| ≤ mkRat 1 1000 := by
  have hmk1000 : (mkRat 1 1000 : ℚ) = 1 / 1000 := by
    rw [Rat.mkRat_eq_div]
    norm_num
  have hmk100 : (mkRat 1 100 : ℚ) = 1 / 100 := by
    rw [Rat.mkRat_eq_div]
    norm_num
  have hsel : selected.dropLast ++ [(d, dur)] = selected := by
    have hne : selected ≠ [] := by
      intro hempty
      rw [hempty] at hlast
      simp at hlast
    have hgl : selected.getLast hne = (d, dur) := by
      rw [List.getLast_eq_iff_getLast?_eq_some]
      exact hlast
    rw [← hgl]
    exact List.dropLast_append_getLast hne
  have hsum : ((selected.map (fun x => x.2)).sum)
      = ((selected.dropLast.map (fun x => x.2)).sum) + dur := by
    conv_lhs => rw [← hsel]
    rw [List.map_append, List.sum_append]
    simp
  unfold adjust_frame_durations
  rw [hlast]
  dsimp only
  rw [if_neg (not_le.mpr hpos)]
  rw [qsum_eq, qdiv_eq, qsub_eq, qabs_eq]
  by_cases hbig : mkRat 1 1000 < |audio_ms / 1000 - (selected.map (fun x => x.2)).sum|
  · rw [if_pos hbig]
    rw [List.map_append, List.sum_append]
    have hqmax : qmax (mkRat 1 100)
        (qadd dur (audio_ms / 1000 - (selected.map (fun x => x.2)).sum))
        = dur + (audio_ms / 1000 - (selected.map (fun x => x.2)).sum) := by
      rw [qadd_eq, qmax_eq]
      exact max_eq_right hfloor
    rw [hqmax]
    simp only [List.map_cons, List.map_nil, List.sum_cons, List.sum_nil]
    rw [hsum]
    rw [hmk1000]
    have : ((selected.dropLast.map (fun x => x.2)).sum)
        + (dur + (audio_ms / 1000 - ((selected.dropLast.map (fun x => x.2)).sum + dur)))
        - audio_ms / 1000 = 0 := by
      ring
    rw [add_zero, this]
    norm_num
  · rw [if_neg hbig]
    rw [not_lt, hmk1000] at hbig
    rw [hmk1000]
    rw [abs_sub_comm] at hbig
    exact hbig

/-- C6 counterexample: an encode invocation selecting two frames with no
audio (`audio_ms = 0`) skips the correction entirely; the summed
durations are 2 s while `audio_ms / 1000 = 0`, far more than 1 ms
apart, although ≥ 1 frame was selected. -/
theorem c6_counterexample :
    encode_segment [((0 : ℚ), [7])] [] 0 1000 1 0
      = Except.ok ⟨2, 0, 1, [([7], 1), ([7], 1)], [], 16000⟩ ∧
    qsum ([([7], (1 : ℚ)), ([7], 1)].map (fun x => x.2)) = 2 ∧
    ¬(qabs (qsub 2 (qdiv 0 1000)) ≤ mkRat 1 1000) := by
  decide

/-- Witness for `c6_duration_correction`: one selected frame of duration
2 s against 1 s of audio; the correction rewrites the last duration to
1 s and the sum matches exactly. -/
theorem c6_witness :
    |((adjust_frame_durations [([7], 2)] 1000).map (fun x => x.2)).sum
        - (1000 : ℚ) / 1000| ≤ mkRat 1 1000 :=
  c6_duration_correction [([7], 2)] 1000 [7] 2 (by decide) (by norm_num)
    (by rw [Rat.mkRat_eq_div]; norm_num)


/-!
## Claim C5: exact audio-window extraction
-/

lemma chunkContribution_full (sr : ℕ) (segStart segEnd : ℚ) (c : AudioChunk)
    (hsr : 0 < sr) (hrate : c.sampleRate = sr) (hnum : 0 < c.numSamples)
    (hlen : c.pcm.length = 2 * c.numSamples)
    (hlo : segStart ≤ c.tsStartMs) (hhi : chunkEndMs c ≤ segEnd) :
    chunkContribution sr segStart segEnd c = c.pcm := by
  have hsrq : (0 : ℚ) < (sr : ℚ) := by exact_mod_cast hsr
  have hnumq : (0 : ℚ) < (c.numSamples : ℚ) := by exact_mod_cast hnum
  have hdur : (0 : ℚ) < ((c.numSamples : ℚ) / (sr : ℚ)) * 1000 := by positivity
  have hhi2 : c.tsStartMs + ((c.numSamples : ℚ) / (sr : ℚ)) * 1000 ≤ segEnd := by
    rw [chunkEndMs_eq, hrate] at hhi
    exact hhi
  unfold chunkContribution
  rw [if_neg (by rw [hrate]; exact fun hne => hne rfl)]
  dsimp only
  simp only [qadd_eq, qsub_eq, qmul_eq, qdiv_eq, qmax_eq, qmin_eq]
  rw [if_neg (by
    push_neg
    constructor
    · linarith
    · linarith)]
  rw [max_eq_left (sub_nonpos.mpr hlo)]
  rw [min_eq_left hhi2]
  rw [sub_self, max_self]
  rw [zero_div, zero_mul, pyInt_zero, sub_zero, pyInt_natCast]
  rw [if_pos (by
    constructor
    · omega
    · rw [hlen]
      push_cast
      omega)]
  have h0 : ((0 : ℤ) * 2).toNat = 0 := by omega
  have h1 : ((c.numSamples : ℤ) * 2 - 0 * 2).toNat = 2 * c.numSamples := by omega
  rw [h0, h1, List.drop_zero]
  rw [← hlen]
  exact List.take_length c.pcm

/-- Contiguity in time of a chunk list: each chunk starts exactly where
the previous one ends. -/
def contiguousB : List AudioChunk → Bool
  | a :: b :: rest => decide (chunkEndMs a = b.tsStartMs) && contiguousB (b :: rest)
  | _ => true

lemma chunk_ts_le_end (c : AudioChunk) : c.tsStartMs ≤ chunkEndMs c := by
  rw [chunkEndMs_eq]
  have : (0 : ℚ) ≤ ((c.numSamples : ℚ) / (c.sampleRate : ℚ)) * 1000 := by positivity
  linarith

lemma contiguous_bounds : ∀ (rest : List AudioChunk) (c0 : AudioChunk),
    contiguousB (c0 :: rest) = true →
    ∀ c ∈ c0 :: rest,
      c0.tsStartMs ≤ c.tsStartMs ∧
      chunkEndMs c ≤ chunkEndMs ((c0 :: rest).getLast (List.cons_ne_nil c0 rest)) := by
  intro rest
  induction rest with
  | nil =>
    intro c0 _ c hc
    rw [List.mem_singleton] at hc
    subst hc
    exact ⟨le_refl _, le_refl _⟩
  | cons c1 cs ih =>
    intro c0 hcont c hc
    rw [show contiguousB (c0 :: c1 :: cs)
        = (decide (chunkEndMs c0 = c1.tsStartMs) && contiguousB (c1 :: cs)) from rfl,
      Bool.and_eq_true] at hcont
    obtain ⟨heqb, hcont2⟩ := hcont
    have heq : chunkEndMs c0 = c1.tsStartMs := of_decide_eq_true heqb
    have hlast_eq : (c0 :: c1 :: cs).getLast (List.cons_ne_nil _ _)
        = (c1 :: cs).getLast (List.cons_ne_nil _ _) := by
      rw [List.getLast_cons]
    rw [List.mem_cons] at hc
    rcases hc with hc | hc
    · subst hc
      refine ⟨le_refl _, ?_⟩
      rw [hlast_eq]
      have hb := (ih c1 hcont2 c1 (List.mem_cons_self _ _)).2
      calc chunkEndMs c = c1.tsStartMs := heq
        _ ≤ chunkEndMs c1 := chunk_ts_le_end c1
        _ ≤ _ := hb
    · obtain ⟨hts, hend⟩ := ih c1 hcont2 c hc
      refine ⟨?_, by rw [hlast_eq]; exact hend⟩
      calc c0.tsStartMs ≤ chunkEndMs c0 := chunk_ts_le_end c0
        _ = c1.tsStartMs := heq
        _ ≤ c.tsStartMs := hts

lemma extract_flatten (sr : ℕ) (segStart segEnd : ℚ) (hsr : 0 < sr) :
    ∀ (l : List AudioChunk),
      (∀ c ∈ l, c.sampleRate = sr ∧ 0 < c.numSamples ∧
        c.pcm.length = 2 * c.numSamples ∧
        segStart ≤ c.tsStartMs ∧ chunkEndMs c ≤ segEnd) →
      (l.map (chunkContribution sr segStart segEnd)).flatten
        = (l.map (fun c => c.pcm)).flatten := by
  intro l
  induction l with
  | nil =>
    intro _
    rfl
  | cons c cs ih =>
    intro hall
    obtain ⟨h1, h2, h3, h4, h5⟩ := hall c (List.mem_cons_self _ _)
    rw [List.map_cons, List.map_cons, List.flatten_cons, List.flatten_cons]
    rw [chunkContribution_full sr segStart segEnd c hsr h1 h2 h3 h4 h5]
    rw [ih (fun x hx => hall x (List.mem_cons_of_mem _ hx))]

/-- C5: for a non-empty, contiguous, single-rate chunk list whose every
chunk has `len(pcm) = 2 * num_samples`, extracting over the window from
the first chunk's start to the last chunk's end returns exactly the
concatenation of all the chunks' PCM bytes (and that common rate) —
sample for sample, with no gap or duplicate at any boundary. -/
theorem c5_audio_exact_cover (c0 : AudioChunk) (rest : List AudioChunk) (sr : ℕ)
    (hsr : 0 < sr)
    (hgood : ∀ c ∈ c0 :: rest,
      c.sampleRate = sr ∧ 0 < c.numSamples ∧ c.pcm.length = 2 * c.numSamples)
    (hcont : contiguousB (c0 :: rest) = true) :
    extract_audio_segment_bytes (c0 :: rest) c0.tsStartMs
        (chunkEndMs ((c0 :: rest).getLast (List.cons_ne_nil c0 rest)))
      = (((c0 :: rest).map (fun c => c.pcm)).flatten, sr) := by
  have hc0sr : c0.sampleRate = sr := (hgood c0 (List.mem_cons_self _ _)).1
  rw [show extract_audio_segment_bytes (c0 :: rest) c0.tsStartMs
        (chunkEndMs ((c0 :: rest).getLast (List.cons_ne_nil c0 rest)))
      = (((c0 :: rest).map (chunkContribution c0.sampleRate c0.tsStartMs
          (chunkEndMs ((c0 :: rest).getLast (List.cons_ne_nil c0 rest))))).flatten,
        c0.sampleRate) from rfl]
  rw [hc0sr]
  rw [extract_flatten sr c0.tsStartMs
    (chunkEndMs ((c0 :: rest).getLast (List.cons_ne_nil c0 rest))) hsr (c0 :: rest)
    (by
      intro c hcm
      obtain ⟨hb1, hb2⟩ := contiguous_bounds rest c0 hcont c hcm
      obtain ⟨hg1, hg2, hg3⟩ := hgood c hcm
      exact ⟨hg1, hg2, hg3, hb1, hb2⟩)]

def c5ChunkA : AudioChunk := ⟨0, [1, 2, 3, 4], 2, 1000⟩

def c5ChunkB : AudioChunk := ⟨2, [5, 6], 1, 1000⟩

/-- Witness for `c5_audio_exact_cover`: two contiguous 1 kHz chunks
(2 ms + 1 ms) reproduce their six PCM bytes exactly. -/
theorem c5_witness :
    extract_audio_segment_bytes [c5ChunkA, c5ChunkB] c5ChunkA.tsStartMs
        (chunkEndMs ([c5ChunkA, c5ChunkB].getLast (List.cons_ne_nil c5ChunkA [c5ChunkB])))
      = (([c5ChunkA, c5ChunkB].map (fun c => c.pcm)).flatten, 1000) :=
  c5_audio_exact_cover c5ChunkA [c5ChunkB] 1000 (by decide) (by decide) (by decide)

/-!
## Claim C8: response-path selection

`WebSocketService._finalize_segment`
(`src/server/app/services/websocket_service.py`, lines 256-271).
Transcript strings are modelled as byte lists; `os.path.exists` on the
muxed artifact is a parameter.
-/

/-- The `chosen_path` values of the finalizer. -/
inductive ChosenPath
  | video
  | videoText
  | audio
  | audioText
  | text
deriving DecidableEq

/-- The path-selection step: `frame_count > 0` and an existing artifact
choose the video path (with `+text` when a transcript is present);
otherwise positive `audio_ms` chooses the audio path; otherwise the text
path.  The second component is the `encoded` flag the source sets
alongside. -/
def select_response_path (r : EncodeResult) (artifactExists : Bool)
    (transcript : List ℕ) : ChosenPath × Bool :=
  if 0 < r.frame_count ∧ artifactExists = true then
    (if transcript = [] then ChosenPath.video else ChosenPath.videoText, true)
  else if 0 < r.audio_ms then
    (if transcript = [] then ChosenPath.audio else ChosenPath.audioText, false)
  else (ChosenPath.text, false)

/-- C8: the response path is selected by strict priority — video when
`frame_count > 0` and the muxed artifact exists, else audio when
`audio_ms > 0`, else text.  In particular an encode invocation with an
empty frame window returns `frame_count = 0`, so with audio present the
audio path is chosen, and with both windows empty the text path is
chosen. -/
theorem c8_response_path_priority :
    (∀ (r : EncodeResult) (art : Bool) (t : List ℕ),
      (0 < r.frame_count ∧ art = true →
        (select_response_path r art t).1
          = (if t = [] then ChosenPath.video else ChosenPath.videoText)) ∧
      (¬(0 < r.frame_count ∧ art = true) → 0 < r.audio_ms →
        (select_response_path r art t).1
          = (if t = [] then ChosenPath.audio else ChosenPath.audioText)) ∧
      (¬(0 < r.frame_count ∧ art = true) → ¬(0 < r.audio_ms) →
        (select_response_path r art t).1 = ChosenPath.text)) ∧
    (∀ (chunks : List AudioChunk) (st en fps : ℚ) (exitCode : ℕ) (r : EncodeResult),
      encode_segment [] chunks st en fps exitCode = Except.ok r →
      r.frame_count = 0 ∧
      (0 < r.audio_ms → ∀ art, (select_response_path r art []).1 = ChosenPath.audio) ∧
      (chunks = [] → ∀ art, (select_response_path r art []).1 = ChosenPath.text)) := by
  constructor
  · intro r art t
    refine ⟨?_, ?_, ?_⟩
    · intro hv
      rw [select_response_path, if_pos hv]
    · intro hnv ha
      rw [select_response_path, if_neg hnv, if_pos ha]
    · intro hnv hna
      rw [select_response_path, if_neg hnv, if_neg hna]
  · intro chunks st en fps exitCode r hok
    have hsel : select_frames_for_segment [] st en fps = ([], 0) := by
      rw [select_frames_for_segment, if_pos (Or.inl rfl)]
    rw [encode_segment] at hok
    rw [hsel] at hok
    dsimp only at hok
    rw [if_neg (lt_irrefl 0)] at hok
    have hr : r = ⟨0, write_wav_duration_ms
        (extract_audio_segment_bytes chunks st en).1
        (extract_audio_segment_bytes chunks st en).2, fps,
        adjust_frame_durations []
          (write_wav_duration_ms (extract_audio_segment_bytes chunks st en).1
            (extract_audio_segment_bytes chunks st en).2),
        (extract_audio_segment_bytes chunks st en).1,
        (extract_audio_segment_bytes chunks st en).2⟩ := by
      injection hok with h
      rw [← h]
    refine ⟨by rw [hr], ?_, ?_⟩
    · intro ha art
      rw [select_response_path]
      rw [if_neg (by rw [hr]; intro hc; exact absurd hc.1 (lt_irrefl 0))]
      rw [if_pos ha]
      rfl
    · intro hch art
      subst hch
      have hext : extract_audio_segment_bytes ([] : List AudioChunk) st en
          = ([], 16000) := rfl
      have hw : write_wav_duration_ms [] 16000 = 0 := by decide
      have hr0 : r = ⟨0, 0, fps, adjust_frame_durations [] 0, [], 16000⟩ := by
        rw [hr, hext]
        dsimp only
        rw [hw]
      rw [hr0]
      rfl

def c8Chunk : AudioChunk := ⟨0, [1, 2], 1, 1000⟩

def c8Result : EncodeResult := ⟨0, 1, 1, [], [1, 2], 1000⟩

/-- Witness for `c8_response_path_priority`: an encode with no frames and
one 1 ms audio chunk yields `frame_count = 0` and the audio path; with
both windows empty the text path. -/
theorem c8_witness :
    c8Result.frame_count = 0 ∧
    (select_response_path c8Result true []).1 = ChosenPath.audio ∧
    (select_response_path ⟨0, 0, 1, [], [], 16000⟩ true []).1 = ChosenPath.text := by
  have h := c8_response_path_priority.2 [c8Chunk] 0 1 1 0 c8Result (by decide)
  have h2 := c8_response_path_priority.2 [] 0 1 1 0 ⟨0, 0, 1, [], [], 16000⟩ (by decide)
  exact ⟨h.1, h.2.1 (by decide) true, h2.2.2 rfl true⟩

/-!
## Claim C9: encode failure handling in the finalizer

`WebSocketService._finalize_segment`
(`src/server/app/services/websocket_service.py`, lines 241-330) and the
equivalent error path of `_finalize_segment` in `src/server/main.py`
(lines 504-530).  The collaborator calls are parameters (`Except.error`
models a raised exception); the return type `Except Unit (List OutMsg)`
lets an escaping exception be expressed, and the theorem shows the
encode-failure path never produces one.
-/

/-- Error tags carried in a segment summary. -/
inductive ErrTag
  | encodeFailed
deriving DecidableEq

/-- The segment-summary payload fields the claims observe. -/
structure SegmentPayload where
  encoded : Bool
  errorTag : Option ErrTag
  chosenPath : Option ChosenPath
  responseText : List ℕ
deriving DecidableEq

/-- The per-segment messages the finalizer sends, in order. -/
inductive OutMsg
  | transcriptFinal (text : List ℕ)
  | segmentMsg (payload : SegmentPayload)
  | responseMsg (text : List ℕ)
deriving DecidableEq

/-- `_finalize_segment` after transcript resolution: encode inside the
guarded block, pick the path and call the collaborator, then emit
transcript (if any) → segment summary → response text (if non-empty).
Any exception in that block — an encode failure in particular — routes to
the handler, which computes a text-only fallback (empty on its own
failure), emits a summary with `encoded = false` and an error tag, then
the fallback response if non-empty.  Nothing escapes: every input maps
to `Except.ok`. -/
def finalize_segment (transcript : List ℕ)
    (enc : Except MuxError EncodeResult) (artifactExists : Bool)
    (collab : Except Unit (List ℕ)) (errFallback : Except Unit (List ℕ)) :
    Except Unit (List OutMsg) :=
  match enc, collab with
  | Except.ok r, Except.ok respText =>
    Except.ok
      ((if transcript = [] then [] else [OutMsg.transcriptFinal transcript]) ++
        [OutMsg.segmentMsg ⟨(select_response_path r artifactExists transcript).2,
          none, some (select_response_path r artifactExists transcript).1, respText⟩] ++
        (if respText = [] then [] else [OutMsg.responseMsg respText]))
  | _, _ =>
    Except.ok
      ([OutMsg.segmentMsg ⟨false, some ErrTag.encodeFailed, none,
          match errFallback with
          | Except.ok tfb => tfb
          | Except.error _ => []⟩] ++
        (if (match errFallback with
            | Except.ok tfb => tfb
            | Except.error _ => []) = []
          then [] else [OutMsg.responseMsg
            (match errFallback with
            | Except.ok tfb => tfb
            | Except.error _ => [])]))

/-- C9: when the encode step fails, the finalizer still returns normally
(`Except.ok` — the failure is caught, never propagated to the
connection), its first message is a segment summary with
`encoded = false` and an error tag, a text-only fallback collaborator
call supplies the summary's response text, and when that fallback yields
non-empty text exactly one response message follows the summary. -/
theorem c9_encode_failure_contained (transcript : List ℕ) (e : MuxError)
    (artifact : Bool) (collab : Except Unit (List ℕ))
    (errFallback : Except Unit (List ℕ)) :
    (∃ msgs fb,
      finalize_segment transcript (Except.error e) artifact collab errFallback
        = Except.ok msgs ∧
      msgs = OutMsg.segmentMsg ⟨false, some ErrTag.encodeFailed, none, fb⟩ ::
        (if fb = [] then [] else [OutMsg.responseMsg fb])) ∧
    (∀ t, errFallback = Except.ok t → t ≠ [] →
      finalize_segment transcript (Except.error e) artifact collab errFallback
        = Except.ok [OutMsg.segmentMsg ⟨false, some ErrTag.encodeFailed, none, t⟩,
            OutMsg.responseMsg t]) := by
  constructor
  · rcases errFallback with u | t
    · exact ⟨[OutMsg.segmentMsg ⟨false, some ErrTag.encodeFailed, none, []⟩], [],
        rfl, rfl⟩
    · by_cases ht : t = []
      · subst ht
        exact ⟨[OutMsg.segmentMsg ⟨false, some ErrTag.encodeFailed, none, []⟩], [],
          rfl, rfl⟩
      · refine ⟨OutMsg.segmentMsg ⟨false, some ErrTag.encodeFailed, none, t⟩ ::
          (if t = [] then [] else [OutMsg.responseMsg t]), t, ?_, rfl⟩
        rfl
  · intro t hfb hne
    subst hfb
    rw [show finalize_segment transcript (Except.error e) artifact collab (Except.ok t)
        = Except.ok ([OutMsg.segmentMsg ⟨false, some ErrTag.encodeFailed, none, t⟩] ++
          (if t = [] then [] else [OutMsg.responseMsg t])) from rfl]
    rw [if_neg hne]
    rfl

/-- Witness for `c9_encode_failure_contained`: a failed encode with a
successful one-byte fallback yields exactly the summary and response. -/
theorem c9_witness :
    finalize_segment [] (Except.error (MuxError.ffmpegFailed 1)) false
        (Except.error ()) (Except.ok [104])
      = Except.ok [OutMsg.segmentMsg ⟨false, some ErrTag.encodeFailed, none, [104]⟩,
          OutMsg.responseMsg [104]] :=
  (c9_encode_failure_contained [] (MuxError.ffmpegFailed 1) false
    (Except.error ()) (Except.ok [104])).2 [104] rfl (by decide)
